import Mathlib

/-!
Shallow embedding of the coarse-to-fine retrieval core of the
qdrant-cuad-search backend.

The embedded code lives in:
* `backend/app/infrastructure/vector_store/qdrant_client.py`
  (`AdvancedQdrantService`: `advanced_search`, `_fallback_search`,
  `_build_filter`, `get_case_by_id`, `get_collection_info`),
* `backend/app/infrastructure/embeddings/embedding_service.py`
  (`FastEmbedService`: `_clean_text`, `_chunk_text`,
  `get_colbert_embeddings`, `get_byte_vector`),
* `backend/app/presentation/api/legal_search_routes.py` (`health_check`),
* `backend/app/infrastructure/configuration.py` (`similarity_threshold`).

Python dicts are embedded as insertion-ordered association lists, Python
floats as rationals, and the external Qdrant client as an `IndexModel`
carrying the stored points, an abstract similarity-scoring function and
per-operation failure injection (an exception raised by the client call).
-/

namespace CuadSearch

/-- Values stored in a point payload (metadata fields plus the injected
score). -/
inductive PayloadVal where
  | str (s : String)
  | num (q : ℚ)
  deriving DecidableEq, Repr

/-- A Python dict used as a payload: insertion-ordered association list. -/
abbrev Payload := List (String × PayloadVal)

/-- Python `d.get(k)`: first binding of key `k`, if any. -/
def dictGet {α : Type} (d : List (String × α)) (k : String) : Option α :=
  match d with
  | [] => none
  | (k', v) :: rest => if k' = k then some v else dictGet rest k

/-- Python `d[k] = v`: overwrite the existing binding in place (dicts keep
the key's original position), else append at the end. -/
def dictSet {α : Type} (d : List (String × α)) (k : String) (v : α) :
    List (String × α) :=
  match d with
  | [] => [(k, v)]
  | (k', v') :: rest =>
      if k' = k then (k', v) :: rest else (k', v') :: dictSet rest k v

/-! ### Filter compiler (`AdvancedQdrantService._build_filter`) -/

/-- A value in the user-supplied `filters` dict: a list of acceptable
values for a categorical field, or a plain string (the date bounds). -/
inductive FilterVal where
  | vlist (vs : List String)
  | vstr (s : String)
  deriving DecidableEq, Repr

/-- The user-supplied `filters` dict. -/
abbrev FilterDict := List (String × FilterVal)

/-- Python truthiness of a filter value: empty list and empty string are
falsy. -/
def truthyFV : FilterVal → Bool
  | .vlist vs => !vs.isEmpty
  | .vstr s => !(s = "")

/-- Python `if filters.get(field):` — the value, if present and truthy. -/
def getTruthy (d : FilterDict) (k : String) : Option FilterVal :=
  match dictGet d k with
  | some v => if truthyFV v then some v else none
  | none => none

/-- A compiled Qdrant `FieldCondition`. -/
inductive Condition where
  | matchValue (key : String) (value : String)
  | matchAny (key : String) (anyOf : List String)
  | range (key : String) (gte lte : Option FilterVal)
  deriving DecidableEq, Repr

/-- A compiled Qdrant `Filter(must=conditions)`. -/
structure QFilter where
  must : List Condition
  deriving DecidableEq, Repr

/-- The nine recognized categorical fields of `_build_filter`. -/
def filterable_fields : List String :=
  ["jurisdiction", "court_level", "case_type", "industry",
   "company_size", "contract_status", "complexity_level",
   "risk_level", "renewal_terms"]

/-- One loop iteration of `_build_filter`: the conditions emitted for one
recognized field.  A truthy list with one element gives `MatchValue`, with
more elements `MatchAny`; a falsy value or a non-list value (the
`isinstance(field_values, list)` check) emits nothing. -/
def fieldCond (d : FilterDict) (field : String) : List Condition :=
  match dictGet d field with
  | some (.vlist vs) =>
      if vs.isEmpty then []
      else if vs.length = 1 then [.matchValue field (vs.headD "")]
      else [.matchAny field vs]
  | some (.vstr _) => []
  | none => []

/-- The date-range conditions of `_build_filter`: if either bound is
truthy, one `Range` condition on `date_filed` with the present bounds. -/
def dateConds (d : FilterDict) : List Condition :=
  if (getTruthy d "date_from").isSome || (getTruthy d "date_to").isSome then
    [.range "date_filed" (getTruthy d "date_from") (getTruthy d "date_to")]
  else []

/-- `AdvancedQdrantService._build_filter`: conditions for each recognized
field in order, then the date range; `Filter(must=conditions)` if any
condition was emitted, else `None`. -/
def build_filter (d : FilterDict) : Option QFilter :=
  let conditions := (filterable_fields.flatMap (fieldCond d)) ++ dateConds d
  if conditions.isEmpty then none else some ⟨conditions⟩

/-- The call sites' `self._build_filter(filters) if filters else None`:
an absent or empty filters dict compiles to no filter at all. -/
def compile_filter (filters : Option FilterDict) : Option QFilter :=
  match filters with
  | none => none
  | some d => if d.isEmpty then none else build_filter d

/-- Observer: the `must` conditions carried by an optional filter. -/
def musts : Option QFilter → List Condition
  | none => []
  | some qf => qf.must

/-- Whether a payload satisfies one compiled condition (the index
collaborator's match semantics; date strings compare lexicographically,
which agrees with ISO 8601 ordering). -/
def condMatches (p : Payload) : Condition → Bool
  | .matchValue k v => dictGet p k == some (.str v)
  | .matchAny k vs =>
      match dictGet p k with
      | some (.str s) => vs.contains s
      | _ => false
  | .range k gte lte =>
      match dictGet p k with
      | some (.str s) =>
          (match gte with
           | some (.vstr g) => decide (g ≤ s)
           | some (.vlist _) => false
           | none => true) &&
          (match lte with
           | some (.vstr l) => decide (s ≤ l)
           | some (.vlist _) => false
           | none => true)
      | _ => false

/-- Whether a payload passes a compiled filter: every `must` condition
holds; no filter means everything passes. -/
def filterMatches (f : Option QFilter) (p : Payload) : Bool :=
  match f with
  | none => true
  | some qf => qf.must.all (condMatches p)

/-! ### Query representation bundles and the funnel plan
(`AdvancedQdrantService.advanced_search`) -/

/-- A value of the `query_embeddings` dict: a single vector (`dense`,
`rerank`, `byte`) or a ColBERT-style list of vectors (`colbert`). -/
inductive EmbVal where
  | vec (v : List ℚ)
  | multi (m : List (List ℚ))
  deriving DecidableEq, Repr

/-- The `query_embeddings` dict: insertion-ordered association list. -/
abbrev QEmb := List (String × EmbVal)

/-- Python truthiness of an embedding value: empty lists are falsy. -/
def truthyEmb : EmbVal → Bool
  | .vec v => !v.isEmpty
  | .multi m => !m.isEmpty

/-- A `Prefetch` chain as built by `advanced_search`: the base prefetch
stage (the only one carrying a filter slot) with optionally nested outer
stages. -/
inductive StagePlan where
  | base (query : Option EmbVal) (usingKind : String) (lim : ℕ)
      (filter : Option QFilter)
  | nested (inner : StagePlan) (query : EmbVal) (usingKind : String) (lim : ℕ)
  deriving DecidableEq, Repr

/-- The final `client.query_points` call: the prefetch chain plus the
final-stage query, vector name and limit. -/
structure QueryPlan where
  chain : StagePlan
  query : Option EmbVal
  usingKind : String
  lim : ℕ
  deriving DecidableEq, Repr

/-- The funnel construction of `advanced_search` (the `try` body up to the
`query_points` call): a byte prefetch stage falling back to the dense
vector when the `byte` key is absent, carrying the compiled filter; a
nested rerank stage exactly when the `rerank` key is present; a final
stage on `colbert` when present, else on `dense`. -/
def build_plan (qe : QEmb) (qdrant_filter : Option QFilter)
    (lim prefetch_lim rerank_lim : ℕ) : QueryPlan :=
  let prefetch_stage : StagePlan :=
    .base ((dictGet qe "byte").or (dictGet qe "dense")) "byte" prefetch_lim
      qdrant_filter
  let rerank_stage : StagePlan :=
    match dictGet qe "rerank" with
    | some rv => .nested prefetch_stage rv "rerank" rerank_lim
    | none => prefetch_stage
  match dictGet qe "colbert" with
  | some cv => ⟨rerank_stage, some cv, "colbert", lim⟩
  | none => ⟨rerank_stage, dictGet qe "dense", "dense", lim⟩

/-- Observer: the filter slots of a chain, innermost first. -/
def stageFilters : StagePlan → List (Option QFilter)
  | .base _ _ _ f => [f]
  | .nested inner _ _ _ => stageFilters inner

/-- Observer: number of stages in a prefetch chain. -/
def chainLength : StagePlan → ℕ
  | .base _ _ _ _ => 1
  | .nested inner _ _ _ => chainLength inner + 1

/-- Observer: the innermost (prefetch) stage of a chain. -/
def baseStage : StagePlan → StagePlan
  | .base q u l f => .base q u l f
  | .nested inner _ _ _ => baseStage inner

/-- Observer: query of the outermost stage of a chain. -/
def headQuery : StagePlan → Option EmbVal
  | .base q _ _ _ => q
  | .nested _ q _ _ => some q

/-- Observer: vector name of the outermost stage of a chain. -/
def headUsing : StagePlan → String
  | .base _ u _ _ => u
  | .nested _ _ u _ => u

/-- Observer: candidate limit of the outermost stage of a chain. -/
def headLimit : StagePlan → ℕ
  | .base _ _ l _ => l
  | .nested _ _ _ l => l

/-! ### The index collaborator

The Qdrant client/server is external to the core (spec §1, §6). It is
modelled as the stored points, an abstract similarity-scoring function
`score : query-embedding → point-id → score`, and per-operation failure
injection standing for an exception raised by the client call. -/

/-- A point as stored in the collection. -/
structure StoredPoint where
  id : String
  payload : Payload
  deriving DecidableEq, Repr

/-- A scored hit as returned by the index. -/
structure ScoredPoint where
  id : String
  payload : Payload
  score : ℚ
  deriving DecidableEq, Repr

/-- An exception raised by a client call: a connectivity-level failure
(index unreachable) or a query-level error. -/
inductive IndexErr where
  | connectivity
  | queryError (msg : String)
  deriving DecidableEq, Repr

/-- The external index: stored points, abstract scoring, and failure
injection per client operation. -/
structure IndexModel where
  points : List StoredPoint
  score : EmbVal → String → ℚ
  queryFails : Option IndexErr
  searchFails : Option IndexErr
  retrieveFails : Option IndexErr
  collectionFails : Option IndexErr
  collectionStatus : String
  pointsCount : ℕ
  vectorsCount : ℕ

/-- Descending insertion of a scored point (the index returns hits sorted
by score, best first). -/
def insertDesc (p : ScoredPoint) : List ScoredPoint → List ScoredPoint
  | [] => [p]
  | q :: rest =>
      if q.score ≤ p.score then p :: q :: rest else q :: insertDesc p rest

/-- Sort hits descending by score. -/
def sortDesc (l : List ScoredPoint) : List ScoredPoint :=
  l.foldr insertDesc []

/-- The index's single-stage `client.search` (spec §6 collaborator
interface): score all points passing the filter, keep those at or above
the score threshold, return the best `lim` — unless the client call
raises. -/
def client_search (ix : IndexModel) (qv : EmbVal) (filt : Option QFilter)
    (lim : ℕ) (threshold : ℚ) : Except IndexErr (List ScoredPoint) :=
  match ix.searchFails with
  | some e => .error e
  | none =>
      let scored := (ix.points.filter (fun p => filterMatches filt p.payload)).map
        (fun p => ⟨p.id, p.payload, ix.score qv p.id⟩)
      .ok ((sortDesc (scored.filter (fun sp => threshold ≤ sp.score))).take lim)

/-- Execution of a prefetch chain by the index server: the base stage
scores the filtered collection with its query; a nested stage rescores its
inner stage's candidates; each stage keeps its best `lim`.  A stage whose
query is absent contributes no candidates. -/
def exec_stage (ix : IndexModel) : StagePlan → List ScoredPoint
  | .base q _ lim f =>
      match q with
      | none => []
      | some qv =>
          (sortDesc ((ix.points.filter (fun p => filterMatches f p.payload)).map
            (fun p => ⟨p.id, p.payload, ix.score qv p.id⟩))).take lim
  | .nested inner q _ lim =>
      (sortDesc ((exec_stage ix inner).map
        (fun sp => ⟨sp.id, sp.payload, ix.score q sp.id⟩))).take lim

/-- The index's multi-stage `client.query_points`: rescore the chain's
candidates with the final query and keep the best `lim` — unless the
client call raises. -/
def client_query_points (ix : IndexModel) (plan : QueryPlan) :
    Except IndexErr (List ScoredPoint) :=
  match ix.queryFails with
  | some e => .error e
  | none =>
      match plan.query with
      | none => .ok []
      | some qv =>
          .ok ((sortDesc ((exec_stage ix plan.chain).map
            (fun sp => ⟨sp.id, sp.payload, ix.score qv sp.id⟩))).take plan.lim)

/-! ### Result formatting, fallback and the funnel entry point -/

/-- The result-formatting loop shared by `advanced_search` and
`_fallback_search`: one output payload per hit, in hit order, with the
hit's score written onto the payload under `score`. -/
def format_results (pts : List ScoredPoint) : List Payload :=
  pts.map (fun r => dictSet r.payload "score" (.num r.score))

/-- The configured minimum similarity (`configuration.py`,
`similarity_threshold`). -/
def similarity_threshold : ℚ := 3 / 10

/-- Python truthiness filter on an optional dict lookup: a present but
falsy value behaves like an absent one under `or`. -/
def truthyOpt (o : Option EmbVal) : Option EmbVal :=
  match o with
  | some v => if truthyEmb v then some v else none
  | none => none

/-- The fallback's query-vector choice
`query_embeddings.get('dense') or query_embeddings.get('rerank') or
list(query_embeddings.values())[0]`: Python `or` skips falsy values, and
indexing an empty dict's values raises. -/
def fallback_query_vector (qe : QEmb) : Except IndexErr EmbVal :=
  match truthyOpt (dictGet qe "dense") with
  | some v => .ok v
  | none =>
      match truthyOpt (dictGet qe "rerank") with
      | some v => .ok v
      | none =>
          match qe.head? with
          | some kv => .ok kv.2
          | none => .error (.queryError "list index out of range")

/-- `AdvancedQdrantService._fallback_search`: single-stage search with the
compiled filter, the caller's limit and the configured score threshold;
any exception inside the body (including from the query-vector choice) is
caught and yields an empty result list, so the call itself never raises. -/
def fallback_search (ix : IndexModel) (qe : QEmb) (filters : Option FilterDict)
    (lim : ℕ) : Except IndexErr (List Payload) :=
  let qdrant_filter := compile_filter filters
  match fallback_query_vector qe with
  | .error _ => .ok []
  | .ok query_vector =>
      match client_search ix query_vector qdrant_filter lim similarity_threshold with
      | .error _ => .ok []
      | .ok res => .ok (format_results res)

/-- `AdvancedQdrantService.advanced_search`: build the compiled filter and
the three-part funnel, run `query_points`, format the hits; any exception
falls back to `_fallback_search` with the same embeddings, filters and
limit. -/
def advanced_search (ix : IndexModel) (qe : QEmb) (filters : Option FilterDict)
    (lim prefetch_lim rerank_lim : ℕ) : Except IndexErr (List Payload) :=
  let qdrant_filter := compile_filter filters
  match client_query_points ix (build_plan qe qdrant_filter lim prefetch_lim rerank_lim) with
  | .ok res => .ok (format_results res)
  | .error _ => fallback_search ix qe filters lim

/-! ### Point retrieval (`AdvancedQdrantService.get_case_by_id`) -/

/-- The index's `client.retrieve(ids=[case_id])`: the stored points with
that id — unless the client call raises. -/
def client_retrieve (ix : IndexModel) (case_id : String) :
    Except IndexErr (List StoredPoint) :=
  match ix.retrieveFails with
  | some e => .error e
  | none => .ok (ix.points.filter (fun p => p.id = case_id))

/-- `AdvancedQdrantService.get_case_by_id`: the first retrieved point's
payload, `None` when nothing was retrieved, and `None` on any exception
(the `except` block catches everything). -/
def get_case_by_id (ix : IndexModel) (case_id : String) : Option Payload :=
  match client_retrieve ix case_id with
  | .error _ => none
  | .ok [] => none
  | .ok (r :: _) => some r.payload

/-! ### Collection info and the health endpoint -/

/-- A value of the dict returned by `get_collection_info`. -/
inductive InfoVal where
  | str (s : String)
  | num (n : ℕ)
  | configInfo
  deriving DecidableEq, Repr

/-- The index's `client.get_collection`: status and point counts — unless
the client call raises. -/
def client_get_collection (ix : IndexModel) :
    Except IndexErr (String × ℕ × ℕ) :=
  match ix.collectionFails with
  | some e => .error e
  | none => .ok (ix.collectionStatus, ix.pointsCount, ix.vectorsCount)

/-- `AdvancedQdrantService.get_collection_info`: the info dict on success;
on any exception (the `except` block catches everything, connectivity
failures included) a dict with status `"error"` — the method itself never
raises. -/
def get_collection_info (ix : IndexModel) : List (String × InfoVal) :=
  match client_get_collection ix with
  | .ok (status, points_count, vectors_count) =>
      [("status", .str status), ("points_count", .num points_count),
       ("vectors_count", .num vectors_count), ("config", .configInfo)]
  | .error _ => [("status", .str "error"), ("error", .str "exception")]

/-- The health endpoint's response model (timestamp omitted: real time is
outside the embedding). -/
structure HealthResponse where
  status : String
  version : String
  qdrant_status : String
  deriving DecidableEq, Repr

/-- `legal_search_routes.health_check`: `qdrant_status` is `"healthy"`
exactly when the collection info reports status `"green"`, else
`"unhealthy"`; the overall `status` field of the success branch is the
constant `"healthy"`.  The route's `except` branch (overall `"unhealthy"`,
`qdrant_status = "error"`) is unreachable with the in-repo service because
`get_collection_info` never raises. -/
def health_check (ix : IndexModel) (version : String) : HealthResponse :=
  let qdrant_info := get_collection_info ix
  let qdrant_status :=
    if dictGet qdrant_info "status" = some (.str "green") then "healthy"
    else "unhealthy"
  ⟨"healthy", version, qdrant_status⟩

/-! ### Representation generator (`FastEmbedService`) -/

/-- Python `text.split()`: split on whitespace runs, no empty pieces. -/
def pySplit (text : String) : List String :=
  (text.split Char.isWhitespace).filter (fun w => w ≠ "")

/-- `FastEmbedService._clean_text`: empty text stays empty; otherwise
collapse whitespace and truncate to 2000 characters plus a `"..."`
marker. -/
def clean_text (text : String) : String :=
  if text = "" then ""
  else
    let t := String.intercalate " " (pySplit text)
    if t.length > 2000 then (t.take 2000) ++ "..." else t

/-- The word loop of `FastEmbedService._chunk_text`, carrying the current
chunk (reversed) and the running `current_length`. -/
def chunk_text_go (max_chunk_size : ℕ) :
    List String → List String → ℕ → List String
  | [], current_chunk, _ =>
      match current_chunk with
      | [] => []
      | _ => [String.intercalate " " current_chunk.reverse]
  | w :: ws, current_chunk, current_length =>
      if current_length + w.length + 1 > max_chunk_size ∧ current_chunk ≠ [] then
        (String.intercalate " " current_chunk.reverse) ::
          chunk_text_go max_chunk_size ws [w] w.length
      else
        chunk_text_go max_chunk_size ws (w :: current_chunk)
          (current_length + w.length + 1)

/-- `FastEmbedService._chunk_text`: greedy word-bounded chunking. -/
def chunk_text (text : String) (max_chunk_size : ℕ) : List String :=
  chunk_text_go max_chunk_size (pySplit text) [] 0

/-- `FastEmbedService.get_colbert_embeddings`, abstracted over the
underlying embedding model `embed`: embed the non-blank members of the
first 8 chunks; if none, embed the whole cleaned text as a single
vector. -/
def get_colbert_embeddings (embed : String → List ℚ) (text : String) :
    List (List ℚ) :=
  let cleaned_text := clean_text text
  let chunks := chunk_text cleaned_text 200
  let multi_vectors :=
    ((chunks.take 8).filter (fun c => c.trim ≠ "")).map embed
  if multi_vectors.isEmpty then [embed cleaned_text] else multi_vectors

/-- The quantization core of `FastEmbedService.get_byte_vector` on an
already-computed dense embedding: min-max normalize to `[0,1]` and scale
to `[0,255]` (`astype(np.uint8)` truncates, which is `floor` on these
non-negative values).  `none` models the undefined outcomes: NumPy `min`
and `max` raise on an empty array, and when all components are equal the
code divides by zero, making every component NaN whose `uint8` cast is
undefined. -/
def get_byte_vector_core (dense_embedding : List ℚ) : Option (List ℕ) :=
  match dense_embedding with
  | [] => none
  | d :: ds =>
      let mn := (d :: ds).foldl min d
      let mx := (d :: ds).foldl max d
      if mx = mn then none
      else some ((d :: ds).map (fun x => (⌊(x - mn) / (mx - mn) * 255⌋).toNat))

/-! ### Concrete index states used to instantiate the theorems -/

/-- A healthy one-document index state. -/
def sampleIx : IndexModel where
  points := [⟨"c1", [("case_name", .str "Alpha Services Agreement"),
                     ("jurisdiction", .str "California")]⟩]
  score := fun _ _ => 9 / 10
  queryFails := none
  searchFails := none
  retrieveFails := none
  collectionFails := none
  collectionStatus := "green"
  pointsCount := 1
  vectorsCount := 4

/-- A sample query-embedding bundle with all four representations. -/
def sampleQe : QEmb :=
  [("dense", .vec [1, 0]), ("rerank", .vec [0, 1]),
   ("colbert", .multi [[1, 1]]), ("byte", .vec [255, 0])]

/-! ### Helper lemmas -/

theorem dictGet_dictSet_self {α : Type} (d : List (String × α)) (k : String)
    (v : α) : dictGet (dictSet d k v) k = some v := by
  induction d with
  | nil => simp [dictGet, dictSet]
  | cons hd tl ih =>
      obtain ⟨k', v'⟩ := hd
      by_cases h : k' = k <;> simp [dictGet, dictSet, h, ih]

theorem dictGet_dictSet_ne {α : Type} (d : List (String × α)) (k k' : String)
    (v : α) (h : k' ≠ k) : dictGet (dictSet d k v) k' = dictGet d k' := by
  induction d with
  | nil => simp [dictGet, dictSet, Ne.symm h]
  | cons hd tl ih =>
      obtain ⟨k₀, v₀⟩ := hd
      by_cases h₀ : k₀ = k
      · subst h₀
        simp [dictGet, dictSet, Ne.symm h]
      · simp [dictGet, dictSet, h₀, ih]

theorem dictGet_cons_ne {α : Type} (d : List (String × α)) (k k' : String)
    (v : α) (h : k ≠ k') : dictGet ((k, v) :: d) k' = dictGet d k' := by
  simp [dictGet, h]

theorem mem_insertDesc (p a : ScoredPoint) (l : List ScoredPoint) :
    a ∈ insertDesc p l ↔ a = p ∨ a ∈ l := by
  induction l with
  | nil => simp [insertDesc]
  | cons q rest ih =>
      by_cases h : q.score ≤ p.score
      · simp [insertDesc, h]
      · simp [insertDesc, h, ih]
        tauto

theorem mem_sortDesc (a : ScoredPoint) (l : List ScoredPoint) :
    a ∈ sortDesc l ↔ a ∈ l := by
  induction l with
  | nil => simp [sortDesc]
  | cons q rest ih =>
      simp only [sortDesc, List.foldr_cons, List.mem_cons]
      rw [mem_insertDesc]
      simp only [sortDesc] at ih
      rw [ih]

/-! ### Claim theorems -/

theorem length_if_isEmpty {α : Type} (l : List α) (x : α) (h8 : l.length ≤ 8) :
    1 ≤ (if l.isEmpty then [x] else l).length ∧
    (if l.isEmpty then [x] else l).length ≤ 8 := by
  cases l with
  | nil => simp
  | cons a as => exact ⟨by simp, by simpa using h8⟩

/-- C6: for every embedding model and input text, the multi-vector output
of `get_colbert_embeddings` is non-empty (the whole cleaned text is used
as a single chunk when chunking yields no usable chunk) and holds at most
8 vectors. -/
theorem colbert_embeddings_nonempty_bounded (embed : String → List ℚ)
    (text : String) :
    1 ≤ (get_colbert_embeddings embed text).length ∧
    (get_colbert_embeddings embed text).length ≤ 8 := by
  have h8 : ((((chunk_text (clean_text text) 200).take 8).filter
      (fun c => c.trim ≠ "")).map embed).length ≤ 8 := by
    rw [List.length_map]
    exact le_trans (List.length_filter_le _ _) (List.length_take_le _ _)
  exact length_if_isEmpty _ (embed (clean_text text)) h8

/-- C7: the byte-vector quantization is well defined on a non-degenerate
dense vector (second conjunct: min-max scaling of `[0, 1/2, 1]`), but on
the degenerate all-equal vector it divides by zero and produces no defined
byte vector (first conjunct) — the fallback the claim requires is absent
from the code. -/
theorem byte_vector_degenerate_undefined :
    get_byte_vector_core [1/2, 1/2, 1/2] = none ∧
    get_byte_vector_core [0, 1/2, 1] = some [0, 127, 255] := by
  constructor
  · simp [get_byte_vector_core]
  · norm_num [get_byte_vector_core, min_def, max_def]
    decide

/-- C8: the result-formatting loop emits exactly one payload per hit, the
i-th output is the i-th hit's payload with the hit's score written under
`score` (so input order is preserved and never re-sorted), every key other
than `score` is passed through verbatim, and the attached score is
readable back. -/
theorem format_results_one_to_one (pts : List ScoredPoint) :
    (format_results pts).length = pts.length ∧
    (∀ i : ℕ, (format_results pts)[i]? =
      (pts[i]?).map (fun r => dictSet r.payload "score" (.num r.score))) ∧
    (∀ r ∈ pts, ∀ k, k ≠ "score" →
      dictGet (dictSet r.payload "score" (.num r.score)) k =
        dictGet r.payload k) ∧
    (∀ r ∈ pts, dictGet (dictSet r.payload "score" (.num r.score)) "score" =
      some (.num r.score)) := by
  refine ⟨List.length_map _ _, fun i => List.getElem?_map .., ?_, ?_⟩
  · intro r _ k hk
    exact dictGet_dictSet_ne _ _ _ _ hk
  · intro r _
    exact dictGet_dictSet_self _ _ _

/-- C8 witness: the formatting properties instantiated on a concrete
two-hit list. -/
theorem format_results_one_to_one_witness :
    (format_results [⟨"a", [("case_name", PayloadVal.str "A")], 1/2⟩,
                     ⟨"b", [("case_name", PayloadVal.str "B")], 1/4⟩]).length = 2 ∧
    dictGet (dictSet [("case_name", PayloadVal.str "A")] "score"
      (PayloadVal.num (1/2))) "case_name" = some (PayloadVal.str "A") ∧
    dictGet (dictSet [("case_name", PayloadVal.str "A")] "score"
      (PayloadVal.num (1/2))) "score" = some (PayloadVal.num (1/2)) := by
  obtain ⟨h1, _, h3, h4⟩ := format_results_one_to_one
    [⟨"a", [("case_name", PayloadVal.str "A")], 1/2⟩,
     ⟨"b", [("case_name", PayloadVal.str "B")], 1/4⟩]
  exact ⟨h1, by
    simpa using h3 ⟨"a", [("case_name", PayloadVal.str "A")], 1/2⟩
      (by simp) "case_name" (by decide), by
    simpa using h4 ⟨"a", [("case_name", PayloadVal.str "A")], 1/2⟩ (by simp)⟩

theorem fieldCond_eq_nil (d : FilterDict) (f : String)
    (h : getTruthy d f = none) : fieldCond d f = [] := by
  cases hg : dictGet d f with
  | none => simp [fieldCond, hg]
  | some v =>
      simp only [getTruthy, hg] at h
      cases v with
      | vlist vs =>
          by_cases ht : truthyFV (.vlist vs) = true
          · rw [if_pos ht] at h
            exact absurd h (by simp)
          · have hemp : vs.isEmpty = true := by
              simpa [truthyFV] using ht
            simp [fieldCond, hg, hemp]
      | vstr s => simp [fieldCond, hg]

theorem flatMap_fieldCond_congr (d₁ d₂ : FilterDict) (fs : List String)
    (h : ∀ f ∈ fs, fieldCond d₁ f = fieldCond d₂ f) :
    fs.flatMap (fieldCond d₁) = fs.flatMap (fieldCond d₂) := by
  induction fs with
  | nil => rfl
  | cons a as ih =>
      simp only [List.flatMap_cons]
      rw [h a (by simp), ih (fun f hf => h f (by simp [hf]))]

theorem flatMap_fieldCond_nil (d : FilterDict) (fs : List String)
    (h : ∀ f ∈ fs, fieldCond d f = []) : fs.flatMap (fieldCond d) = [] := by
  induction fs with
  | nil => rfl
  | cons a as ih =>
      simp only [List.flatMap_cons]
      rw [h a (by simp), ih (fun f hf => h f (by simp [hf]))]
      rfl

theorem mem_musts_build_filter (d : FilterDict) (c : Condition)
    (hc : c ∈ (filterable_fields.flatMap (fieldCond d)) ++ dateConds d) :
    c ∈ musts (build_filter d) := by
  have hne : ¬ (((filterable_fields.flatMap (fieldCond d)) ++ dateConds d).isEmpty
      = true) := by
    intro h
    rw [List.isEmpty_iff] at h
    rw [h] at hc
    exact absurd hc (List.not_mem_nil c)
  unfold build_filter
  rw [if_neg hne]
  simpa [musts] using hc

theorem dictGet_mem {α : Type} (d : List (String × α)) (k : String) (v : α)
    (h : dictGet d k = some v) : (k, v) ∈ d := by
  induction d with
  | nil => exact absurd h (by simp [dictGet])
  | cons hd tl ih =>
      obtain ⟨k₀, v₀⟩ := hd
      by_cases h₀ : k₀ = k
      · subst h₀
        simp only [dictGet, if_pos rfl] at h
        simp [← Option.some.inj h]
      · simp only [dictGet, if_neg h₀] at h
        exact List.mem_cons_of_mem _ (ih h)

theorem truthyOpt_eq_some (o : Option EmbVal) (v : EmbVal)
    (h : truthyOpt o = some v) : o = some v := by
  cases o with
  | none => exact absurd h (by simp [truthyOpt])
  | some w =>
      by_cases hw : truthyEmb w = true
      · simpa [truthyOpt, hw] using h
      · exact absurd h (by simp [truthyOpt, hw])

theorem fallback_query_vector_mem (qe : QEmb) (v : EmbVal)
    (h : fallback_query_vector qe = .ok v) : ∃ k, (k, v) ∈ qe := by
  unfold fallback_query_vector at h
  cases hd : truthyOpt (dictGet qe "dense") with
  | some w =>
      rw [hd] at h
      obtain rfl : w = v := Except.ok.inj h
      exact ⟨"dense", dictGet_mem _ _ _ (truthyOpt_eq_some _ _ hd)⟩
  | none =>
      rw [hd] at h
      cases hr : truthyOpt (dictGet qe "rerank") with
      | some w =>
          rw [hr] at h
          obtain rfl : w = v := Except.ok.inj h
          exact ⟨"rerank", dictGet_mem _ _ _ (truthyOpt_eq_some _ _ hr)⟩
      | none =>
          rw [hr] at h
          cases qe with
          | nil => exact absurd h (by simp)
          | cons kv rest =>
              simp only [List.head?_cons] at h
              obtain rfl : kv.2 = v := Except.ok.inj h
              exact ⟨kv.1, by simp⟩

theorem client_search_ok_spec (ix : IndexModel) (qv : EmbVal)
    (filt : Option QFilter) (lim : ℕ) (thr : ℚ) (res : List ScoredPoint)
    (h : client_search ix qv filt lim thr = .ok res) :
    res.length ≤ lim ∧ ∀ sp ∈ res, thr ≤ sp.score ∧
      ∃ p ∈ ix.points, filterMatches filt p.payload = true ∧
        sp = ⟨p.id, p.payload, ix.score qv p.id⟩ := by
  cases hs : ix.searchFails with
  | some e => simp [client_search, hs] at h
  | none =>
      simp only [client_search, hs] at h
      obtain rfl := Except.ok.inj h
      constructor
      · exact List.length_take_le _ _
      · intro sp hsp
        have hsp₁ := (mem_sortDesc sp _).mp (List.mem_of_mem_take hsp)
        obtain ⟨hsp₂, hthr⟩ := List.mem_filter.mp hsp₁
        obtain ⟨p, hp, rfl⟩ := List.mem_map.mp hsp₂
        obtain ⟨hp₁, hfm⟩ := List.mem_filter.mp hp
        exact ⟨of_decide_eq_true hthr, p, hp₁, hfm, rfl⟩

theorem advanced_search_error_eq_fallback (ix : IndexModel) (qe : QEmb)
    (filters : Option FilterDict) (lim plim rlim : ℕ) (e : IndexErr)
    (h : ix.queryFails = some e) :
    advanced_search ix qe filters lim plim rlim =
      fallback_search ix qe filters lim := by
  simp [advanced_search, client_query_points, h]

theorem fallback_search_inner_error (ix : IndexModel) (qe : QEmb)
    (filters : Option FilterDict) (lim : ℕ) (e' : IndexErr)
    (h : ix.searchFails = some e') :
    fallback_search ix qe filters lim = .ok [] := by
  cases hq : fallback_query_vector qe with
  | error err => simp [fallback_search, hq]
  | ok qv => simp [fallback_search, client_search, hq, h]

theorem fallback_search_never_raises (ix : IndexModel) (qe : QEmb)
    (filters : Option FilterDict) (lim : ℕ) :
    ∃ r, fallback_search ix qe filters lim = .ok r := by
  cases hq : fallback_query_vector qe with
  | error err => exact ⟨[], by simp [fallback_search, hq]⟩
  | ok qv =>
      cases hcs : client_search ix qv (compile_filter filters) lim
          similarity_threshold with
      | error err => exact ⟨[], by simp [fallback_search, hq, hcs]⟩
      | ok res => exact ⟨format_results res, by simp [fallback_search, hq, hcs]⟩

theorem fallback_search_ok_spec (ix : IndexModel) (qe : QEmb)
    (filters : Option FilterDict) (lim : ℕ) (r : List Payload)
    (h : fallback_search ix qe filters lim = .ok r) :
    r.length ≤ lim ∧ ∀ p ∈ r, ∃ sp ∈ ix.points,
      filterMatches (compile_filter filters) sp.payload = true ∧
      ∃ s : ℚ, similarity_threshold ≤ s ∧
        p = dictSet sp.payload "score" (.num s) ∧
        dictGet p "score" = some (.num s) := by
  cases hq : fallback_query_vector qe with
  | error err =>
      have h0 : fallback_search ix qe filters lim = .ok [] := by
        simp [fallback_search, hq]
      rw [h0] at h
      obtain rfl : ([] : List Payload) = r := Except.ok.inj h
      simp
  | ok qv =>
      cases hcs : client_search ix qv (compile_filter filters) lim
          similarity_threshold with
      | error err =>
          have h0 : fallback_search ix qe filters lim = .ok [] := by
            simp [fallback_search, hq, hcs]
          rw [h0] at h
          obtain rfl : ([] : List Payload) = r := Except.ok.inj h
          simp
      | ok res =>
          have h0 : fallback_search ix qe filters lim =
              .ok (format_results res) := by
            simp [fallback_search, hq, hcs]
          rw [h0] at h
          obtain rfl : format_results res = r := Except.ok.inj h
          obtain ⟨hlen, hmem⟩ := client_search_ok_spec ix qv
            (compile_filter filters) lim similarity_threshold res hcs
          constructor
          · rw [format_results, List.length_map]
            exact hlen
          · intro p hp
            rw [format_results] at hp
            obtain ⟨sp, hsp, rfl⟩ := List.mem_map.mp hp
            obtain ⟨hthr, p₀, hp₀, hfm, rfl⟩ := hmem sp hsp
            exact ⟨p₀, hp₀, hfm, ix.score qv p₀.id, hthr, rfl,
              dictGet_dictSet_self _ _ _⟩

/-- C2: whenever the multi-stage `query_points` call raises, the funnel
answers exactly what `_fallback_search` answers with the same embeddings,
filters and original limit; the fallback queries with the dense-coarse
vector whenever that one is present and non-empty, and the vector it
queries with is always one of the bundle's present representations; and
every result it produces comes from a stored point satisfying the same
compiled filter,
carries a similarity score at least the configured threshold of 3/10
attached under `score`, and at most the original limit of results is
returned. -/
theorem advanced_search_soft_failure_fallback (ix : IndexModel) (qe : QEmb)
    (filters : Option FilterDict) (lim plim rlim : ℕ) (e : IndexErr)
    (hfail : ix.queryFails = some e) :
    advanced_search ix qe filters lim plim rlim =
      fallback_search ix qe filters lim ∧
    (∀ dv, dictGet qe "dense" = some dv → truthyEmb dv = true →
      fallback_query_vector qe = .ok dv) ∧
    (∀ v, fallback_query_vector qe = .ok v → ∃ k, (k, v) ∈ qe) ∧
    (∀ r, fallback_search ix qe filters lim = .ok r →
      r.length ≤ lim ∧ ∀ p ∈ r, ∃ sp ∈ ix.points,
        filterMatches (compile_filter filters) sp.payload = true ∧
        ∃ s : ℚ, similarity_threshold ≤ s ∧
          p = dictSet sp.payload "score" (.num s) ∧
          dictGet p "score" = some (.num s)) := by
  refine ⟨advanced_search_error_eq_fallback ix qe filters lim plim rlim e hfail,
    ?_, fun v hv => fallback_query_vector_mem qe v hv,
    fun r hr => fallback_search_ok_spec ix qe filters lim r hr⟩
  intro dv hdv ht
  simp [fallback_query_vector, truthyOpt, hdv, ht]

/-- C2 witness: on a concrete one-document index whose multi-stage call
raises an index error, the funnel equals the single-stage fallback and the
fallback picks the dense query vector. -/
theorem advanced_search_soft_failure_fallback_witness :
    advanced_search { sampleIx with queryFails := some (.queryError "index error") }
      sampleQe (some [("jurisdiction", FilterVal.vlist ["California"])]) 5 1000 100 =
      fallback_search { sampleIx with queryFails := some (.queryError "index error") }
        sampleQe (some [("jurisdiction", FilterVal.vlist ["California"])]) 5 ∧
    fallback_query_vector sampleQe = .ok (EmbVal.vec [1, 0]) := by
  obtain ⟨h1, h2, _, _⟩ := advanced_search_soft_failure_fallback
    { sampleIx with queryFails := some (.queryError "index error") }
    sampleQe (some [("jurisdiction", FilterVal.vlist ["California"])]) 5 1000 100
    (.queryError "index error") rfl
  exact ⟨h1, h2 (EmbVal.vec [1, 0]) rfl rfl⟩

/-- C3 counterexample: on a concrete index state whose fallback search
raises a connectivity-level (index unreachable) failure, the funnel still
answers a plain empty result list — the failure is not propagated as a
fatal error distinct from a zero-result response, contrary to the claim's
carve-out. -/
theorem fallback_connectivity_not_propagated :
    ({ sampleIx with
        queryFails := some (.queryError "index error"),
        searchFails := some .connectivity } : IndexModel).searchFails =
      some IndexErr.connectivity ∧
    advanced_search
      { sampleIx with
        queryFails := some (.queryError "index error"),
        searchFails := some .connectivity } sampleQe none 5 1000 100 =
      Except.ok [] := by
  constructor
  · rfl
  · rfl

/-- C3 amended: if the single-stage fallback search also raises — any
failure kind whatsoever, connectivity-level index-unreachable failures
included — the funnel returns an empty result list instead of raising;
indeed the fallback never raises at all. -/
theorem fallback_total_failure_returns_empty (ix : IndexModel) (qe : QEmb)
    (filters : Option FilterDict) (lim plim rlim : ℕ) (e e' : IndexErr)
    (h1 : ix.queryFails = some e) (h2 : ix.searchFails = some e') :
    advanced_search ix qe filters lim plim rlim = Except.ok [] ∧
    ∀ qe' filters' lim', ∃ r,
      fallback_search ix qe' filters' lim' = Except.ok r := by
  refine ⟨?_, fun qe' filters' lim' =>
    fallback_search_never_raises ix qe' filters' lim'⟩
  exact (advanced_search_error_eq_fallback ix qe filters lim plim rlim e h1).trans
    (fallback_search_inner_error ix qe filters lim e' h2)

/-- C3 witness: the amended behavior on a concrete index state where the
multi-stage call raises an index error and the fallback raises a
connectivity failure. -/
theorem fallback_total_failure_returns_empty_witness :
    advanced_search
      { sampleIx with
        queryFails := some (.queryError "boom"),
        searchFails := some .connectivity } sampleQe
      (some [("jurisdiction", FilterVal.vlist ["California"])]) 5 1000 100 =
      Except.ok [] := by
  exact (fallback_total_failure_returns_empty
    { sampleIx with
      queryFails := some (.queryError "boom"),
      searchFails := some .connectivity } sampleQe
    (some [("jurisdiction", FilterVal.vlist ["California"])]) 5 1000 100
    (.queryError "boom") .connectivity rfl rfl).1

/-- C4: for every filters dict, each recognized categorical field that is
present with a non-empty value list yields an exact-match condition when
the list is a singleton and an any-of condition when it has several
values; a truthy date bound yields a range condition on `date_filed`;
prepending an entry for an unrecognized field leaves the compiled filter
unchanged; and the compiled filter matches a payload exactly when every
emitted condition holds of it (conjunctive semantics). -/
theorem build_filter_compiles_conditions (d : FilterDict) :
    (∀ field vs, field ∈ filterable_fields →
      dictGet d field = some (.vlist vs) → vs ≠ [] →
      ((vs.length = 1 →
        Condition.matchValue field (vs.headD "") ∈ musts (build_filter d)) ∧
       (2 ≤ vs.length →
        Condition.matchAny field vs ∈ musts (build_filter d)))) ∧
    (((getTruthy d "date_from").isSome ∨ (getTruthy d "date_to").isSome) →
      Condition.range "date_filed" (getTruthy d "date_from")
        (getTruthy d "date_to") ∈ musts (build_filter d)) ∧
    (∀ k v, k ∉ filterable_fields → k ≠ "date_from" → k ≠ "date_to" →
      build_filter ((k, v) :: d) = build_filter d) ∧
    (∀ qf p, build_filter d = some qf →
      (filterMatches (some qf) p = true ↔
        ∀ c ∈ qf.must, condMatches p c = true)) := by
  refine ⟨?_, ?_, ?_, ?_⟩
  · intro field vs hf hget hne
    have hemp : vs.isEmpty = false := by
      cases vs with
      | nil => exact absurd rfl hne
      | cons a as => rfl
    constructor
    · intro hlen
      refine mem_musts_build_filter d _ (List.mem_append_left _ ?_)
      exact List.mem_flatMap.mpr ⟨field, hf, by simp [fieldCond, hget, hemp, hlen]⟩
    · intro hlen
      have hlen1 : vs.length ≠ 1 := by omega
      refine mem_musts_build_filter d _ (List.mem_append_left _ ?_)
      exact List.mem_flatMap.mpr ⟨field, hf, by simp [fieldCond, hget, hemp, hlen1]⟩
  · intro hdates
    refine mem_musts_build_filter d _ (List.mem_append_right _ ?_)
    have hcond : ((getTruthy d "date_from").isSome ||
        (getTruthy d "date_to").isSome) = true := by
      rcases hdates with h | h <;> simp [h]
    simp [dateConds, hcond]
  · intro k v hk hk1 hk2
    have hfc : ∀ f ∈ filterable_fields, fieldCond ((k, v) :: d) f = fieldCond d f := by
      intro f hf
      have hne : k ≠ f := fun h => hk (h ▸ hf)
      unfold fieldCond
      rw [dictGet_cons_ne d k f v hne]
    have hgt : ∀ key, k ≠ key →
        getTruthy ((k, v) :: d) key = getTruthy d key := by
      intro key hne
      unfold getTruthy
      rw [dictGet_cons_ne d k key v hne]
    have hdc : dateConds ((k, v) :: d) = dateConds d := by
      unfold dateConds
      rw [hgt "date_from" hk1, hgt "date_to" hk2]
    unfold build_filter
    rw [flatMap_fieldCond_congr _ d _ hfc, hdc]
  · intro qf p _
    simp [filterMatches, List.all_eq_true]

/-- C4 witness: the compiler outputs on a concrete filters dict with a
singleton field, a multi-valued field, an unrecognized field and a date
bound. -/
theorem build_filter_compiles_conditions_witness :
    Condition.matchValue "jurisdiction" "California" ∈
      musts (build_filter [("jurisdiction", .vlist ["California"]),
        ("case_type", .vlist ["NDA", "MSA"]),
        ("date_from", .vstr "2020-01-01")]) ∧
    Condition.matchAny "case_type" ["NDA", "MSA"] ∈
      musts (build_filter [("jurisdiction", .vlist ["California"]),
        ("case_type", .vlist ["NDA", "MSA"]),
        ("date_from", .vstr "2020-01-01")]) ∧
    build_filter (("industry_code", .vstr "722") ::
        [("jurisdiction", .vlist ["California"]),
         ("case_type", .vlist ["NDA", "MSA"]),
         ("date_from", .vstr "2020-01-01")]) =
      build_filter [("jurisdiction", .vlist ["California"]),
        ("case_type", .vlist ["NDA", "MSA"]),
        ("date_from", .vstr "2020-01-01")] := by
  obtain ⟨h1, _, h3, _⟩ := build_filter_compiles_conditions
    [("jurisdiction", .vlist ["California"]),
     ("case_type", .vlist ["NDA", "MSA"]),
     ("date_from", .vstr "2020-01-01")]
  refine ⟨(h1 "jurisdiction" ["California"] (by decide) (by decide)
      (by decide)).1 (by decide),
    (h1 "case_type" ["NDA", "MSA"] (by decide) (by decide) (by decide)).2
      (by decide),
    h3 "industry_code" (.vstr "722") (by decide) (by decide) (by decide)⟩

/-- C5: an absent filters dict compiles to no filter; a dict in which
every recognized categorical field and both date bounds are absent or
falsy compiles to no filter; and a compiled filter, when one is produced
at all, always carries at least one condition — never an always-true empty
conjunction. -/
theorem compile_filter_empty_spec (filters : Option FilterDict) :
    (filters = none → compile_filter filters = none) ∧
    (∀ d, filters = some d →
      (∀ f ∈ filterable_fields, getTruthy d f = none) →
      getTruthy d "date_from" = none → getTruthy d "date_to" = none →
      compile_filter filters = none) ∧
    (∀ qf, compile_filter filters = some qf → qf.must ≠ []) := by
  refine ⟨?_, ?_, ?_⟩
  · intro h
    rw [h]
    rfl
  · intro d hd hfields hfrom hto
    subst hd
    have hflat : filterable_fields.flatMap (fieldCond d) = [] :=
      flatMap_fieldCond_nil d _ (fun f hf => fieldCond_eq_nil d f (hfields f hf))
    have hdc : dateConds d = [] := by
      simp [dateConds, hfrom, hto]
    have hbf : build_filter d = none := by
      unfold build_filter
      rw [hflat, hdc]
      rfl
    show (if d.isEmpty = true then none else build_filter d) = none
    rw [hbf]
    simp
  · intro qf hqf
    cases filters with
    | none => exact absurd hqf (by simp [compile_filter])
    | some d =>
        have hqf' : (if d.isEmpty = true then none else build_filter d)
            = some qf := hqf
        by_cases hde : d.isEmpty = true
        · rw [if_pos hde] at hqf'
          exact absurd hqf' (by simp)
        · rw [if_neg hde] at hqf'
          have hbf : (if ((filterable_fields.flatMap (fieldCond d)) ++
                dateConds d).isEmpty = true then none
              else some (⟨(filterable_fields.flatMap (fieldCond d)) ++
                dateConds d⟩ : QFilter)) = some qf := hqf'
          by_cases hce : ((filterable_fields.flatMap (fieldCond d)) ++
              dateConds d).isEmpty = true
          · rw [if_pos hce] at hbf
            exact absurd hbf (by simp)
          · rw [if_neg hce] at hbf
            have := Option.some.inj hbf
            rw [← this]
            simpa [List.isEmpty_iff] using hce

/-- C5 witness: a filters dict whose entries are all empty or blank
compiles to no filter. -/
theorem compile_filter_empty_spec_witness :
    compile_filter (some [("jurisdiction", FilterVal.vlist []),
      ("risk_level", FilterVal.vstr ""), ("date_from", FilterVal.vstr "")])
      = none := by
  exact (compile_filter_empty_spec (some [("jurisdiction", FilterVal.vlist []),
      ("risk_level", FilterVal.vstr ""), ("date_from", FilterVal.vstr "")])).2.1
    _ rfl (by decide) (by decide) (by decide)

/-- C1: for every query bundle, compiled filter and limits, the funnel
plan has a base prefetch stage querying the byte representation (falling
back to the dense one when the `byte` key is absent) with the prefetch
limit, the compiled filter sits on that stage and nowhere else in the
chain, a rerank stage (on the `rerank` vector with the rerank limit) is
nested exactly when the bundle holds that representation (otherwise the
outermost chain stage is the prefetch stage itself), the final ranking
uses the multi-vector `colbert` representation when present and the
`dense` one otherwise with the caller's limit, and the chain always holds
at least one stage. -/
theorem advanced_search_plan_spec (qe : QEmb) (filt : Option QFilter)
    (lim plim rlim : ℕ) :
    baseStage (build_plan qe filt lim plim rlim).chain =
      .base ((dictGet qe "byte").or (dictGet qe "dense")) "byte" plim filt ∧
    stageFilters (build_plan qe filt lim plim rlim).chain = [filt] ∧
    chainLength (build_plan qe filt lim plim rlim).chain =
      (if (dictGet qe "rerank").isSome then 2 else 1) ∧
    headUsing (build_plan qe filt lim plim rlim).chain =
      (if (dictGet qe "rerank").isSome then "rerank" else "byte") ∧
    headLimit (build_plan qe filt lim plim rlim).chain =
      (if (dictGet qe "rerank").isSome then rlim else plim) ∧
    headQuery (build_plan qe filt lim plim rlim).chain =
      (if (dictGet qe "rerank").isSome then dictGet qe "rerank"
       else (dictGet qe "byte").or (dictGet qe "dense")) ∧
    (build_plan qe filt lim plim rlim).usingKind =
      (if (dictGet qe "colbert").isSome then "colbert" else "dense") ∧
    (build_plan qe filt lim plim rlim).query =
      ((dictGet qe "colbert").or (dictGet qe "dense")) ∧
    (build_plan qe filt lim plim rlim).lim = lim ∧
    1 ≤ chainLength (build_plan qe filt lim plim rlim).chain := by
  cases hr : dictGet qe "rerank" <;> cases hc : dictGet qe "colbert" <;>
    simp [build_plan, baseStage, stageFilters, chainLength, headUsing,
      headLimit, headQuery, hr, hc, Option.or]

/-- C9: evaluation of the composed health path at a connectivity-failing
index: `get_collection_info` swallows the exception into a status of
`"error"`, so the route's exception branch never runs and the endpoint
answers with overall status `"healthy"` while only the `qdrant_status`
field reports `"unhealthy"` — the service is not reported as unhealthy,
although the route's own `except` branch and the test
`test_health_check_service_error` expect overall `"unhealthy"` on a
collection-info failure. -/
theorem health_check_unreachable_stays_healthy :
    ({ sampleIx with collectionFails := some .connectivity } :
        IndexModel).collectionFails = some IndexErr.connectivity ∧
    health_check { sampleIx with collectionFails := some .connectivity }
      "2.0.0" =
      { status := "healthy", version := "2.0.0",
        qdrant_status := "unhealthy" } := by
  constructor
  · rfl
  · rfl

/-- C10: `get_case_by_id` returns `none` whenever the underlying retrieve
call raises, and also returns `none` when the call succeeds with no point
of that id — so an index failure is indistinguishable from a missing
document at this interface. -/
theorem get_case_by_id_swallows_errors (ix : IndexModel) (case_id : String) :
    (∀ e, ix.retrieveFails = some e → get_case_by_id ix case_id = none) ∧
    (ix.retrieveFails = none →
      ix.points.filter (fun p => p.id = case_id) = [] →
      get_case_by_id ix case_id = none) := by
  constructor
  · intro e he
    simp [get_case_by_id, client_retrieve, he]
  · intro hn hf
    simp [get_case_by_id, client_retrieve, hn, hf]

/-- C10 witness: a retrieve failure on a concrete index state yields
`none`, and so does a successful retrieve of an unknown id. -/
theorem get_case_by_id_swallows_errors_witness :
    get_case_by_id { sampleIx with retrieveFails := some .connectivity } "c1"
      = none ∧
    get_case_by_id sampleIx "zzz" = none := by
  refine ⟨(get_case_by_id_swallows_errors
      { sampleIx with retrieveFails := some .connectivity } "c1").1
      IndexErr.connectivity rfl,
    (get_case_by_id_swallows_errors sampleIx "zzz").2 rfl (by decide)⟩

end CuadSearch
